import Mathlib

/-
Verification of the lock-free slab allocator in src/lock-free-alloc.c
(Michael 2004 design).  The development shallowly embeds the data model and
the operations of the C file: the 64-bit anchor word becomes a structure of
Nat fields with explicit truncation at the bit widths of the C bitfields
(avail:10, count:10, state:2, tag:42); the anchor-CAS loops become the pure
functions computing the published new anchor from the loaded old one; the
queue-walking helpers become structurally recursive functions on lists; and
the allocation entry point is given a sequential (interference-free)
semantics in which every CAS succeeds, plus an explicit oracle for the OS
page allocator so that the out-of-memory path can be examined.
-/

set_option maxRecDepth 4096

namespace LockFreeAlloc

/- States of the anchor's 2-bit state field (enum at lines 38-42). -/
inductive State where
  | FULL
  | PARTIAL
  | EMPTY
  deriving DecidableEq

/- The Anchor union (lines 44-52): four bitfields packed in 64 bits.
   avail : 10 bits, count : 10 bits, state : 2 bits, tag : 42 bits.
   Each field is a Nat; writes truncate at the field width. -/
structure Anchor where
  avail : Nat
  count : Nat
  state : State
  tag : Nat
  deriving DecidableEq

/- Constants from lines 68-73 and 367. -/
def NUM_DESC_BATCH : Nat := 64
def SB_SIZE : Nat := 16384
def SB_HEADER_SIZE : Nat := 16
def SB_USABLE_SIZE : Nat := SB_SIZE - SB_HEADER_SIZE
def MAX_SMALL_SIZE : Nat := 8192 - 8
def TEST_SIZE : Nat := 64

/- Bitfield truncation helpers: a 10-bit field wraps mod 1024 on increment
   and decrement, a 42-bit field wraps mod 2^42 on increment. -/
def inc10 (n : Nat) : Nat := (n + 1) % 1024
def dec10 (n : Nat) : Nat := (n + 1023) % 1024
def inc42 (n : Nat) : Nat := (n + 1) % (2 ^ 42)

/- The new anchor published by the CAS of alloc_from_active_or_partial
   (lines 303-315): avail is overwritten with the next-index read from the
   head free slot, count is decremented, tag is incremented, and the state
   becomes FULL when the decremented count reaches zero (otherwise the old
   state, which the preceding ASSERT pins to PARTIAL, is kept). -/
def allocAnchorUpdate (a : Anchor) (next : Nat) : Anchor :=
  Anchor.mk (next % 1024) (dec10 a.count)
    (if dec10 a.count = 0 then State.FULL else a.state)
    (inc42 a.tag)

/- The new anchor published by the CAS of mono_lock_free_free
   (lines 421-433): avail is overwritten with the freed slot's index, count
   is incremented, a FULL descriptor becomes PARTIAL, and when the
   incremented count reaches max_count the state becomes EMPTY.  The tag
   field is never written on this path. -/
def freeAnchorUpdate (a : Anchor) (slotIndex maxCount : Nat) : Anchor :=
  Anchor.mk (slotIndex % 1024) (inc10 a.count)
    (if inc10 a.count = maxCount then State.EMPTY
     else if a.state = State.FULL then State.PARTIAL else a.state)
    a.tag

/- The anchor written by alloc_from_new_sb (lines 347-353):
   avail = 1 (slot 0 goes to the caller), count = max_count - 1, tag = 0,
   state = PARTIAL. -/
def alloc_from_new_sb_anchor (maxCount : Nat) : Anchor :=
  Anchor.mk 1 ((maxCount - 1) % 1024) State.PARTIAL 0

/- The state/count relationship asserted by descriptor_check_consistency
   (lines 492-510) and stated as the spec's anchor invariant. -/
def anchorInv (a : Anchor) (maxCount : Nat) : Prop :=
  (a.count = maxCount ↔ a.state = State.EMPTY) ∧
  (a.count = 0 ↔ a.state = State.FULL) ∧
  (a.count ≠ maxCount → a.count ≠ 0 → a.state = State.PARTIAL)

instance (a : Anchor) (mc : Nat) : Decidable (anchorInv a mc) := by
  unfold anchorInv; infer_instance

/- One iteration of the CAS loop of alloc_from_active_or_partial after the
   descriptor has been taken (lines 291-316): an EMPTY descriptor is retired
   and the operation retries (lines 295-299); otherwise a CAS with the
   updated anchor is attempted for the slot at sb + avail * slot_size. -/
inductive AllocStep where
  | retire
  | cas (newA : Anchor) (addr : Nat)
  deriving DecidableEq

def allocAttempt (a : Anchor) (next sb slotSize : Nat) : AllocStep :=
  if a.state = State.EMPTY then AllocStep.retire
  else AllocStep.cas (allocAnchorUpdate a next) (sb + a.avail * slotSize)

/- The precondition checked by set_anchor's ASSERT (lines 262-269): an
   EMPTY descriptor is being retired and must not be re-armed. -/
def set_anchor_ok (oldA newA : Anchor) : Prop :=
  oldA.state = State.EMPTY → newA.state = State.EMPTY

/- The dispatch performed by mono_lock_free_free after its successful anchor
   CAS (lines 436-459), parameterised by whether the CAS taking the
   descriptor out of heap->active succeeded. -/
inductive FreeAction where
  | retireDesc
  | removeEmpty
  | installOrPut
  | noAction
  deriving DecidableEq

def freePostAction (newA : Anchor) (oldState : State) (wonActiveCas : Bool) : FreeAction :=
  if newA.state = State.EMPTY then
    (if wonActiveCas then FreeAction.retireDesc else FreeAction.removeEmpty)
  else if oldState = State.FULL then FreeAction.installOrPut
  else FreeAction.noAction

/- For the queue-walking helpers a descriptor is abstracted to an identity
   and the anchor state that the helper inspects.  The MPMC queue of a size
   class is modelled as a FIFO list (head = next to dequeue). -/
structure QDesc where
  id : Nat
  state : State
  deriving DecidableEq

/- list_get_partial (lines 196-207): dequeue until a non-EMPTY descriptor
   is found; EMPTY ones are retired (desc_retire, line 205).  Returns the
   result, the retired descriptors, and the remaining queue. -/
def list_get_partial_m : List QDesc → Option QDesc × List QDesc × List QDesc
  | [] => (none, [], [])
  | d :: rest =>
    if d.state = State.EMPTY then
      let r := list_get_partial_m rest
      (r.1, d :: r.2.1, r.2.2)
    else (some d, [], rest)

/- list_remove_empty_desc (lines 227-248): dequeue; EMPTY descriptors are
   retired; non-EMPTY ones are re-enqueued (via the hazard-deferred
   desc_put_partial, so the re-enqueue is not observed by this loop) and
   after the second re-enqueue the loop returns.  The accumulator is
   num_non_empty.  Returns (retired, re-enqueued, remaining front). -/
def list_remove_empty_aux : List QDesc → Nat → List QDesc × List QDesc × List QDesc
  | [], _ => ([], [], [])
  | d :: rest, n =>
    if d.state = State.EMPTY then
      let r := list_remove_empty_aux rest n
      (d :: r.1, r.2.1, r.2.2)
    else if 2 ≤ n + 1 then ([], [d], rest)
    else
      let r := list_remove_empty_aux rest (n + 1)
      (r.1, d :: r.2.1, r.2.2)

def list_remove_empty_desc (q : List QDesc) : List QDesc × List QDesc × List QDesc :=
  list_remove_empty_aux q 0

/- For the descriptor pool a descriptor is abstracted to an identity, its
   in_use flag and its anchor state.  desc_avail is modelled as a list
   (top of the lock-free stack = head). -/
structure DescR where
  id : Nat
  in_use : Bool
  state : State
  deriving DecidableEq

/- The pop path of desc_alloc (lines 109-112 and 143-146): pop the head,
   ASSERT (!desc->in_use) — modelled as returning none when the assertion
   aborts — then set in_use to true and return the descriptor. -/
def desc_alloc_pop : List DescR → Option (DescR × List DescR)
  | [] => none
  | d :: rest =>
    if d.in_use then none
    else some ({ d with in_use := true }, rest)

/- desc_retire (lines 165-173): ASSERT state EMPTY and in_use; clear
   in_use.  (free_sb and the hazard-deferred hand-off to
   desc_enqueue_avail are not modelled here.) -/
def desc_retire (d : DescR) : Option DescR :=
  if d.state = State.EMPTY then
    (if d.in_use then some { d with in_use := false } else none)
  else none

/- desc_enqueue_avail (lines 149-163): ASSERT state EMPTY and not in_use;
   push onto the desc_avail stack. -/
def desc_enqueue_avail (d : DescR) (avail : List DescR) : Option (List DescR) :=
  if d.state = State.EMPTY ∧ d.in_use = false then some (d :: avail) else none

/- The batch path of desc_alloc (lines 113-135).  The 64 freshly
   OS-allocated descriptors are identified by the addresses
   base, base+1, ..., base+63; the linking loop (lines 121-127) makes
   descriptor i point to descriptor i+1 with the last next null, so the
   chain is exactly the list below. -/
def descChain : Nat → Nat → List Nat
  | _, 0 => []
  | base, n + 1 => base :: descChain (base + 1) n

def batchChain (base : Nat) : List Nat := descChain base NUM_DESC_BATCH

/- The installing CAS (line 131): CAS desc_avail from NULL to desc->next
   (the chain's second element); on success the first descriptor is
   returned; on failure the whole batch is freed back to the OS (line 134)
   and desc_avail is untouched.  availAtCas is the value of desc_avail at
   the moment of the CAS; the result is (returned, new desc_avail,
   batch freed). -/
def desc_alloc_batch (availAtCas : List Nat) (base : Nat) :
    Option Nat × List Nat × Bool :=
  if availAtCas = [] then (some base, (batchChain base).tail, false)
  else (none, availAtCas, true)

/- The ascending index sequence k, k+1, ..., k+n-1, used to describe free
   chains. -/
def natSeq : Nat → Nat → List Nat
  | _, 0 => []
  | k, n + 1 => k :: natSeq (k + 1) n

/- The in-superblock free chain: starting slot index and number of free
   slots; nexts is the content of each slot's first 4 bytes.  The walk
   reads a slot's next field only when more slots remain, mirroring the
   traversal of descriptor_check_consistency (lines 515-531) in which
   count bounds the number of visited slots. -/
def chain (nexts : Nat → Nat) : Nat → Nat → List Nat
  | _, 0 => []
  | i, n + 1 => i :: (if n = 0 then [] else chain nexts (nexts i) n)

/- Slot contents after the initialisation loop of alloc_from_new_sb
   (lines 339-340): slot i holds i+1 for 1 ≤ i < count-1; every other
   slot keeps the value the OS handed out.  mono_sgen_alloc_os_memory_aligned
   is called with activate=TRUE and returns zeroed pages, so the untouched
   slots (slot 0 and the last slot) hold v = 0. -/
def newSbSlotsWith (count v : Nat) : Nat → Nat :=
  fun i => if 1 ≤ i ∧ i < count - 1 then i + 1 else v

def newSbSlots (count : Nat) : Nat → Nat := newSbSlotsWith count 0

/- Validity of a free chain of n slots starting at i: every visited index
   is below max_count and every stored next-index is below max_count (free
   slots are either freshly zeroed or were written a previous avail, which
   mono_lock_free_free ASSERTs to be in range at line 425). -/
def chainOk (nexts : Nat → Nat) (mc : Nat) : Nat → Nat → Prop
  | _, 0 => True
  | i, n + 1 => i < mc ∧ nexts i < mc ∧ chainOk nexts mc (nexts i) n

/- Full descriptor model for the sequential semantics of the allocation
   entry point: the anchor, the size-class slot size, max_count, the base
   address of the usable region (desc->sb) and the next-index stored in the
   first 4 bytes of each slot, indexed by slot number. -/
structure DescM where
  anchor : Anchor
  slotSize : Nat
  maxCount : Nat
  sb : Nat
  slots : Nat → Nat

/- A heap (MonoLockFreeAllocator) together with its size class: slot_size
   from the size class, the active descriptor slot and the partial queue.
   `detached` is a ghost list collecting descriptors that became FULL and
   hence are referenced by no heap structure (the program recovers them
   through the superblock header on free); it lets the development state
   that their anchors stay consistent too. -/
structure SeqHeap where
  slotSize : Nat
  active : Option DescM
  partialQ : List DescM
  detached : List DescM

/- Result of a sequential run: a returned address, a NULL return, or an
   abort (a failed ASSERT or the null-pointer write that alloc_sb performs
   when the OS allocator returns NULL, line 83). -/
inductive SeqResult where
  | ptr (addr : Nat) (h : SeqHeap)
  | nullRet (h : SeqHeap)
  | fail

/- list_get_partial over full descriptors, as used by heap_get_partial
   (lines 196-207, 250-254); retired EMPTY descriptors are dropped from
   the model (their superblock is freed and the record returns to the
   pool). -/
def heap_get_partial_seq : List DescM → Option DescM × List DescM
  | [] => (none, [])
  | d :: rest =>
    if d.anchor.state = State.EMPTY then heap_get_partial_seq rest
    else (some d, rest)

/- The body of alloc_from_active_or_partial once the descriptor is owned
   (lines 291-324), sequentially (the anchor CAS succeeds first time).
   The ASSERTs at lines 300, 301 and 308 abort on failure (.fail).  After
   the CAS: a still-PARTIAL descriptor is CAS-ed back into heap->active,
   or pushed to the partial queue if another descriptor got there first
   (lines 318-322); a FULL one is simply dropped (ghost-tracked in
   detached). -/
def allocGiveBack (d' : DescM) (h : SeqHeap) : SeqHeap :=
  if d'.anchor.state = State.PARTIAL then
    match h.active with
    | none => { h with active := some d' }
    | some _ => { h with partialQ := h.partialQ ++ [d'] }
  else { h with detached := h.detached ++ [d'] }

def allocOwned (d : DescM) (h : SeqHeap) : SeqResult :=
  if d.anchor.state = State.PARTIAL ∧ 0 < d.anchor.count then
    if d.slots d.anchor.avail < SB_USABLE_SIZE / d.slotSize then
      SeqResult.ptr (d.sb + d.anchor.avail * d.slotSize)
        (allocGiveBack
          { d with anchor := allocAnchorUpdate d.anchor (d.slots d.anchor.avail) } h)
    else SeqResult.fail
  else SeqResult.fail

/- The partial-queue branch of alloc_from_active_or_partial
   (lines 283-287): heap_get_partial; NULL means return NULL. -/
def partialPathSeq (h : SeqHeap) : SeqResult :=
  match heap_get_partial_seq h.partialQ with
  | (none, rest) => SeqResult.nullRet { h with partialQ := rest }
  | (some d, rest) => allocOwned d { h with partialQ := rest }

/- alloc_from_active_or_partial (lines 271-325), sequential: take the
   active descriptor by CAS (always succeeds without interference); if the
   taken descriptor is EMPTY it is retired and the retry finds active
   empty, falling through to the partial path (lines 295-299). -/
def alloc_from_active_or_partial_seq (h : SeqHeap) : SeqResult :=
  match h.active with
  | some d =>
    if d.anchor.state = State.EMPTY then partialPathSeq { h with active := none }
    else allocOwned d { h with active := none }
  | none => partialPathSeq h

/- alloc_from_new_sb (lines 327-365) with an oracle `os` for
   mono_sgen_alloc_os_memory_aligned: os = none models a refused
   allocation, in which case alloc_sb (line 83) writes the descriptor
   through SB_HEADER_FOR_ADDR (NULL) — a null-pointer store, modelled as
   .fail.  os = some hdr models a granted, zeroed region at address hdr;
   the ASSERT at line 82 checks its alignment.  Sequentially the
   installing CAS on heap->active (line 358) succeeds when active is
   null; on failure the code would retire the descriptor and return NULL
   (lines 361-363). -/
def newSbDesc (ss hdr : Nat) : DescM :=
  { anchor := alloc_from_new_sb_anchor (SB_USABLE_SIZE / ss), slotSize := ss,
    maxCount := SB_USABLE_SIZE / ss, sb := hdr + SB_HEADER_SIZE,
    slots := newSbSlots (SB_USABLE_SIZE / ss) }

def seq_alloc_from_new_sb (h : SeqHeap) (os : Option Nat) : SeqResult :=
  match os with
  | none => SeqResult.fail
  | some hdr =>
    if hdr % SB_SIZE = 0 then
      match h.active with
      | none => SeqResult.ptr (hdr + SB_HEADER_SIZE)
          { h with active := some (newSbDesc h.slotSize hdr) }
      | some _ => SeqResult.nullRet h
    else SeqResult.fail

/- mono_lock_free_alloc (lines 380-402), sequential: the for-loop tries
   alloc_from_active_or_partial then alloc_from_new_sb and only exits with
   a non-null address.  Without interference one round suffices: the inner
   nullRet branch (which would make the code loop) is proved unreachable
   below, so mapping it through keeps the function total without changing
   its meaning. -/
def seq_mono_lock_free_alloc (h : SeqHeap) (os : Option Nat) : SeqResult :=
  match alloc_from_active_or_partial_seq h with
  | SeqResult.nullRet h1 => seq_alloc_from_new_sb h1 os
  | r => r

/- A freshly initialised heap with the test size class (init_heap,
   lines 372-378): slot size TEST_SIZE, no active descriptor, empty partial
   queue. -/
def emptyHeap : SeqHeap :=
  { slotSize := TEST_SIZE, active := none, partialQ := [], detached := [] }

/- Well-formedness of a live descriptor: its anchor satisfies the state
   invariant, count is at most max_count, max_count is determined by the
   slot size and fits the 10-bit fields, there are at least two slots per
   superblock (guaranteed by MAX_SMALL_SIZE), and the free chain of count
   slots starting at avail stays in range. -/
def descWf (d : DescM) : Prop :=
  anchorInv d.anchor d.maxCount ∧
  d.anchor.count ≤ d.maxCount ∧
  d.maxCount = SB_USABLE_SIZE / d.slotSize ∧
  d.maxCount < 1024 ∧
  2 ≤ d.maxCount ∧
  chainOk d.slots d.maxCount d.anchor.avail d.anchor.count

/- Well-formedness of a heap: the active descriptor (if any) is a
   well-formed PARTIAL descriptor of the heap's size class (asserted by
   heap_check_consistency at line 549); the partial queue holds well-formed
   non-FULL descriptors of the size class (line 553); detached descriptors
   are well-formed. -/
def heapWf (h : SeqHeap) : Prop :=
  (∀ d, h.active = some d →
     descWf d ∧ d.slotSize = h.slotSize ∧ d.anchor.state = State.PARTIAL) ∧
  (∀ d ∈ h.partialQ,
     descWf d ∧ d.slotSize = h.slotSize ∧ d.anchor.state ≠ State.FULL) ∧
  (∀ d ∈ h.detached, descWf d)

/- ---------------------------------------------------------------- -/
/- Helper lemmas. -/

theorem aux_dec10 (n : Nat) (h1 : 1 ≤ n) (h2 : n ≤ 1023) : dec10 n = n - 1 := by
  unfold dec10; omega

theorem aux_inc10 (n : Nat) (h : n + 1 < 1024) : inc10 n = n + 1 := by
  unfold inc10; omega

theorem aux_partial_of_ne (s : State) (h1 : s ≠ State.FULL) (h2 : s ≠ State.EMPTY) :
    s = State.PARTIAL := by
  cases s
  · exact absurd rfl h1
  · rfl
  · exact absurd rfl h2

/- The alloc-path anchor update preserves the state invariant. -/
theorem aux_alloc_inv (a : Anchor) (mc next : Nat) (hmc : mc < 1024) (hmc2 : 2 ≤ mc)
    (hc : a.count ≤ mc) (hinv : anchorInv a mc) (hp : a.state = State.PARTIAL) :
    anchorInv (allocAnchorUpdate a next) mc := by
  obtain ⟨h1, h2, _⟩ := hinv
  have hne : a.count ≠ mc := by
    intro h
    have h' := h1.mp h
    rw [hp] at h'
    exact State.noConfusion h'
  have h0 : a.count ≠ 0 := by
    intro h
    have h' := h2.mp h
    rw [hp] at h'
    exact State.noConfusion h'
  have hd : dec10 a.count = a.count - 1 := aux_dec10 _ (by omega) (by omega)
  unfold allocAnchorUpdate anchorInv
  dsimp only
  rw [hd, hp]
  by_cases hz : a.count - 1 = 0
  · rw [if_pos hz, hz]
    refine ⟨⟨fun hcm => absurd hcm.symm (by omega), fun hS => State.noConfusion hS⟩,
            ⟨fun _ => rfl, fun _ => rfl⟩, fun hcm hc0 => absurd rfl hc0⟩
  · rw [if_neg hz]
    refine ⟨⟨fun hcm => absurd hcm (by omega), fun hS => State.noConfusion hS⟩,
            ⟨fun hc0 => absurd hc0 hz, fun hS => State.noConfusion hS⟩,
            fun _ _ => rfl⟩

/- The free-path anchor update preserves the state invariant, given that
   the old state is not EMPTY (the freed slot was in use, so count < max;
   line 437 ASSERTs this on the EMPTY-producing path). -/
theorem aux_free_inv (a : Anchor) (mc idx : Nat) (hmc : mc < 1024) (hmc2 : 2 ≤ mc)
    (hc : a.count ≤ mc) (hinv : anchorInv a mc) (hne : a.state ≠ State.EMPTY) :
    anchorInv (freeAnchorUpdate a idx mc) mc := by
  obtain ⟨h1, h2, _⟩ := hinv
  have hcm : a.count ≠ mc := fun h => hne (h1.mp h)
  have hi : inc10 a.count = a.count + 1 := aux_inc10 _ (by omega)
  unfold freeAnchorUpdate anchorInv
  dsimp only
  rw [hi]
  by_cases hE : a.count + 1 = mc
  · rw [if_pos hE]
    refine ⟨⟨fun _ => rfl, fun _ => hE⟩,
            ⟨fun hc0 => absurd hc0 (by omega), fun hS => State.noConfusion hS⟩,
            fun hm _ => absurd hE hm⟩
  · rw [if_neg hE]
    by_cases hF : a.state = State.FULL
    · rw [if_pos hF]
      have hc0 : a.count = 0 := h2.mpr hF
      refine ⟨⟨fun h => absurd h hE, fun hS => State.noConfusion hS⟩,
              ⟨fun h => absurd h (by omega), fun hS => State.noConfusion hS⟩,
              fun _ _ => rfl⟩
    · rw [if_neg hF]
      have hP : a.state = State.PARTIAL := aux_partial_of_ne _ hF hne
      have hc0 : a.count ≠ 0 := by
        intro h
        exact hF (h2.mp h)
      rw [hP]
      refine ⟨⟨fun h => absurd h hE, fun hS => State.noConfusion hS⟩,
              ⟨fun h => absurd h (by omega), fun hS => State.noConfusion hS⟩,
              fun _ _ => rfl⟩

/- The anchor installed by alloc_from_new_sb satisfies the state
   invariant. -/
theorem aux_newsb_inv (mc : Nat) (hmc : mc < 1024) (hmc2 : 2 ≤ mc) :
    anchorInv (alloc_from_new_sb_anchor mc) mc := by
  unfold alloc_from_new_sb_anchor anchorInv
  dsimp only
  have h : (mc - 1) % 1024 = mc - 1 := Nat.mod_eq_of_lt (by omega)
  rw [h]
  refine ⟨⟨fun hcm => absurd hcm (by omega), fun hS => State.noConfusion hS⟩,
          ⟨fun hc0 => absurd hc0 (by omega), fun hS => State.noConfusion hS⟩,
          fun _ _ => rfl⟩

theorem aux_natSeq_length (n k : Nat) : (natSeq k n).length = n := by
  induction n generalizing k with
  | zero => rfl
  | succ m ih => simp [natSeq, ih]

theorem aux_natSeq_mem (n k j : Nat) : j ∈ natSeq k n ↔ k ≤ j ∧ j < k + n := by
  induction n generalizing k with
  | zero => simp [natSeq]
  | succ m ih =>
    simp only [natSeq, List.mem_cons, ih]
    omega

theorem aux_natSeq_nodup (n k : Nat) : (natSeq k n).Nodup := by
  induction n generalizing k with
  | zero => exact List.nodup_nil
  | succ m ih =>
    simp only [natSeq]
    refine List.nodup_cons.mpr ⟨?_, ih (k + 1)⟩
    intro hmem
    have h := (aux_natSeq_mem m (k + 1) k).mp hmem
    omega

/- Walking the fresh superblock's free chain for n steps from slot k
   visits exactly slots k, k+1, ..., k+n-1; the value v stored in the
   untouched slots is never followed. -/
theorem aux_chain_eq (c v n k : Nat) (hk : 1 ≤ k) (hkc : k + n ≤ c) :
    chain (newSbSlotsWith c v) k n = natSeq k n := by
  induction n generalizing k with
  | zero => rfl
  | succ m ih =>
    simp only [chain, natSeq]
    by_cases hm : m = 0
    · subst hm
      simp [natSeq]
    · rw [if_neg hm]
      have hnext : newSbSlotsWith c v k = k + 1 := by
        unfold newSbSlotsWith
        rw [if_pos ⟨hk, by omega⟩]
      rw [hnext, ih (k + 1) (by omega) (by omega)]

theorem aux_chainOk_newSb (c v : Nat) (hv : v < c) :
    ∀ n k, 1 ≤ k → k + n ≤ c → chainOk (newSbSlotsWith c v) c k n := by
  intro n
  induction n with
  | zero => intro k _ _; trivial
  | succ m ih =>
    intro k hk hkc
    by_cases hlt : k < c - 1
    · have hnext : newSbSlotsWith c v k = k + 1 := by
        unfold newSbSlotsWith
        rw [if_pos ⟨hk, hlt⟩]
      simp only [chainOk, hnext]
      exact ⟨by omega, by omega, ih (k + 1) (by omega) (by omega)⟩
    · have hm : m = 0 := by omega
      have hnext : newSbSlotsWith c v k = v := by
        unfold newSbSlotsWith
        rw [if_neg]
        intro hcontra
        exact hlt hcontra.2
      subst hm
      simp only [chainOk, hnext]
      exact ⟨by omega, hv, trivial⟩

/- allocOwned never returns NULL: its outcomes are an address or an
   aborted ASSERT. -/
theorem aux_allocOwned_not_nullRet (d : DescM) (h h' : SeqHeap) :
    allocOwned d h ≠ SeqResult.nullRet h' := by
  unfold allocOwned
  split
  · split
    · exact fun hc => SeqResult.noConfusion hc
    · exact fun hc => SeqResult.noConfusion hc
  · exact fun hc => SeqResult.noConfusion hc

/- heap_get_partial_seq: a NULL result drains the queue entirely. -/
theorem aux_hgp_none (q rest : List DescM)
    (hq : heap_get_partial_seq q = (none, rest)) : rest = [] := by
  induction q with
  | nil =>
    unfold heap_get_partial_seq at hq
    exact (Prod.mk.injEq _ _ _ _ ▸ hq).2.symm ▸ rfl
  | cons d tl ih =>
    unfold heap_get_partial_seq at hq
    by_cases hE : d.anchor.state = State.EMPTY
    · rw [if_pos hE] at hq
      exact ih hq
    · rw [if_neg hE] at hq
      exact absurd (Prod.mk.injEq _ _ _ _ ▸ hq).1 (by simp)

/- heap_get_partial_seq: a non-NULL result is a non-EMPTY member of the
   queue and the remaining queue is made of members of the original. -/
theorem aux_hgp_some (q rest : List DescM) (d : DescM)
    (hq : heap_get_partial_seq q = (some d, rest)) :
    d ∈ q ∧ d.anchor.state ≠ State.EMPTY ∧ ∀ x ∈ rest, x ∈ q := by
  induction q with
  | nil =>
    unfold heap_get_partial_seq at hq
    exact absurd (Prod.mk.injEq _ _ _ _ ▸ hq).1 (by simp)
  | cons e tl ih =>
    unfold heap_get_partial_seq at hq
    by_cases hE : e.anchor.state = State.EMPTY
    · rw [if_pos hE] at hq
      obtain ⟨h1, h2, h3⟩ := ih hq
      exact ⟨List.mem_cons_of_mem _ h1, h2, fun x hx => List.mem_cons_of_mem _ (h3 x hx)⟩
    · rw [if_neg hE] at hq
      have h1 := (Prod.mk.injEq _ _ _ _ ▸ hq).1
      have h2 := (Prod.mk.injEq _ _ _ _ ▸ hq).2
      have hde : e = d := Option.some.injEq _ _ ▸ h1
      subst hde
      subst h2
      exact ⟨List.mem_cons_self _ _, hE, fun x hx => List.mem_cons_of_mem _ hx⟩

/- partialPathSeq: a NULL return leaves the active slot untouched, drains
   the partial queue, and changes nothing else. -/
theorem aux_partialPath_nullRet (h h1 : SeqHeap)
    (hq : partialPathSeq h = SeqResult.nullRet h1) :
    h1.active = h.active ∧ h1.partialQ = [] ∧ h1.slotSize = h.slotSize ∧
    h1.detached = h.detached := by
  unfold partialPathSeq at hq
  rcases hres : heap_get_partial_seq h.partialQ with ⟨res, rest⟩
  rw [hres] at hq
  cases res with
  | none =>
    simp only at hq
    have hrest := aux_hgp_none _ _ hres
    cases hq
    exact ⟨rfl, hrest, rfl, rfl⟩
  | some d =>
    simp only at hq
    exact absurd hq (aux_allocOwned_not_nullRet _ _ _)

/- alloc_from_active_or_partial: a NULL return means no active descriptor
   remains and the partial queue is drained. -/
theorem aux_aa_nullRet (h h1 : SeqHeap)
    (hq : alloc_from_active_or_partial_seq h = SeqResult.nullRet h1) :
    h1.active = none ∧ h1.partialQ = [] ∧ h1.slotSize = h.slotSize ∧
    h1.detached = h.detached := by
  unfold alloc_from_active_or_partial_seq at hq
  rcases hact : h.active with _ | d
  · rw [hact] at hq
    simp only at hq
    obtain ⟨ha, hp, hs, hd⟩ := aux_partialPath_nullRet _ _ hq
    exact ⟨ha.trans hact, hp, hs, hd⟩
  · rw [hact] at hq
    simp only at hq
    by_cases hE : d.anchor.state = State.EMPTY
    · rw [if_pos hE] at hq
      obtain ⟨ha, hp, hs, hd⟩ := aux_partialPath_nullRet _ _ hq
      exact ⟨ha, hp, hs, hd⟩
    · rw [if_neg hE] at hq
      exact absurd hq (aux_allocOwned_not_nullRet _ _ _)

/- seq_alloc_from_new_sb with an empty active slot never returns NULL. -/
theorem aux_newsb_not_nullRet (h h' : SeqHeap) (os : Option Nat)
    (hact : h.active = none) : seq_alloc_from_new_sb h os ≠ SeqResult.nullRet h' := by
  unfold seq_alloc_from_new_sb
  cases os with
  | none => exact fun hc => SeqResult.noConfusion hc
  | some hdr =>
    simp only
    by_cases hal : hdr % SB_SIZE = 0
    · rw [if_pos hal, hact]
      exact fun hc => SeqResult.noConfusion hc
    · rw [if_neg hal]
      exact fun hc => SeqResult.noConfusion hc

/- mono_lock_free_alloc, sequentially, never returns NULL. -/
theorem aux_mono_never_null (h : SeqHeap) (os : Option Nat) (h' : SeqHeap) :
    seq_mono_lock_free_alloc h os ≠ SeqResult.nullRet h' := by
  unfold seq_mono_lock_free_alloc
  cases haa : alloc_from_active_or_partial_seq h with
  | ptr addr h1 => exact fun hc => SeqResult.noConfusion hc
  | nullRet h1 =>
    have hact := (aux_aa_nullRet _ _ haa).1
    exact aux_newsb_not_nullRet _ _ _ hact
  | fail => exact fun hc => SeqResult.noConfusion hc

/- Giving an owned descriptor back (reinstall as active, or ghost-track a
   FULL one) preserves heap well-formedness. -/
theorem aux_giveBack_wf (d' : DescM) (h : SeqHeap)
    (hwf : descWf d') (hss : d'.slotSize = h.slotSize) (hact : h.active = none)
    (hh : heapWf h)
    (hst : d'.anchor.state = State.PARTIAL ∨ d'.anchor.state = State.FULL) :
    heapWf (allocGiveBack d' h) ∧ (allocGiveBack d' h).slotSize = h.slotSize ∧
    ((allocGiveBack d' h).active = some d' ∨ d' ∈ (allocGiveBack d' h).detached) := by
  obtain ⟨hhA, hhP, hhD⟩ := hh
  unfold allocGiveBack
  by_cases hp : d'.anchor.state = State.PARTIAL
  · rw [if_pos hp, hact]
    refine ⟨⟨?_, ?_, ?_⟩, rfl, Or.inl rfl⟩
    · intro x hx
      dsimp only at hx
      obtain rfl := Option.some.inj hx
      exact ⟨hwf, hss, hp⟩
    · intro x hx
      exact hhP x hx
    · intro x hx
      exact hhD x hx
  · rw [if_neg hp]
    refine ⟨⟨?_, ?_, ?_⟩, rfl,
      Or.inr (List.mem_append.mpr (Or.inr (List.mem_singleton.mpr rfl)))⟩
    · intro x hx
      dsimp only at hx
      rw [hact] at hx
      exact Option.noConfusion hx
    · intro x hx
      exact hhP x hx
    · intro x hx
      rcases List.mem_append.mp hx with h1 | h2
      · exact hhD x h1
      · obtain rfl := List.mem_singleton.mp h2
        exact hwf

/- The owned-descriptor allocation step on a well-formed PARTIAL
   descriptor: the ASSERTs pass, the returned address is the head free
   slot, and well-formedness is preserved. -/
theorem aux_allocOwned_wf (d : DescM) (h : SeqHeap)
    (hwf : descWf d) (hp : d.anchor.state = State.PARTIAL)
    (hss : d.slotSize = h.slotSize) (hact : h.active = none) (hh : heapWf h) :
    ∃ h', allocOwned d h = SeqResult.ptr (d.sb + d.anchor.avail * d.slotSize) h' ∧
      heapWf h' ∧ h'.slotSize = h.slotSize ∧ d.anchor.avail < d.maxCount ∧
      ∃ dl, (h'.active = some dl ∨ dl ∈ h'.detached) ∧ dl.sb = d.sb ∧
        dl.slotSize = d.slotSize := by
  obtain ⟨hinv, hcle, hmceq, hmclt, hmc2, hchain⟩ := hwf
  have hc0 : d.anchor.count ≠ 0 := by
    intro hz
    have hz' := hinv.2.1.mp hz
    rw [hp] at hz'
    exact State.noConfusion hz'
  obtain ⟨m, hm⟩ : ∃ m, d.anchor.count = m + 1 := ⟨d.anchor.count - 1, by omega⟩
  rw [hm] at hchain
  obtain ⟨havail, hnext, hrest⟩ : d.anchor.avail < d.maxCount ∧
      d.slots d.anchor.avail < d.maxCount ∧
      chainOk d.slots d.maxCount (d.slots d.anchor.avail) m := hchain
  have hdec : dec10 d.anchor.count = m := by
    rw [hm, aux_dec10 (m + 1) (by omega) (by omega)]
    omega
  have hmod : d.slots d.anchor.avail % 1024 = d.slots d.anchor.avail :=
    Nat.mod_eq_of_lt (by omega)
  have hwf' : descWf { d with anchor := allocAnchorUpdate d.anchor (d.slots d.anchor.avail) } := by
    refine ⟨aux_alloc_inv _ _ _ hmclt hmc2 hcle hinv hp, ?_, hmceq, hmclt, hmc2, ?_⟩
    · show dec10 d.anchor.count ≤ d.maxCount
      rw [hdec]
      omega
    · show chainOk d.slots d.maxCount (d.slots d.anchor.avail % 1024) (dec10 d.anchor.count)
      rw [hmod, hdec]
      exact hrest
  have hst : (allocAnchorUpdate d.anchor (d.slots d.anchor.avail)).state = State.PARTIAL ∨
      (allocAnchorUpdate d.anchor (d.slots d.anchor.avail)).state = State.FULL := by
    unfold allocAnchorUpdate
    dsimp only
    by_cases hz : dec10 d.anchor.count = 0
    · rw [if_pos hz]
      exact Or.inr rfl
    · rw [if_neg hz, hp]
      exact Or.inl rfl
  obtain ⟨hW, hS, hloc⟩ := aux_giveBack_wf _ h hwf' hss hact hh hst
  refine ⟨_, ?_, hW, hS, havail,
    { d with anchor := allocAnchorUpdate d.anchor (d.slots d.anchor.avail) },
    hloc, rfl, rfl⟩
  unfold allocOwned
  rw [if_pos ⟨hp, by omega⟩, if_pos (hmceq ▸ hnext)]

/- The descriptor built by alloc_from_new_sb is well-formed. -/
theorem aux_newsb_desc_wf (ss : Nat) (hdr : Nat)
    (hc2 : 2 ≤ SB_USABLE_SIZE / ss) (hc1024 : SB_USABLE_SIZE / ss < 1024) :
    descWf (newSbDesc ss hdr) := by
  unfold newSbDesc
  have hmod : (SB_USABLE_SIZE / ss - 1) % 1024 = SB_USABLE_SIZE / ss - 1 :=
    Nat.mod_eq_of_lt (by omega)
  refine ⟨aux_newsb_inv _ hc1024 hc2, ?_, rfl, hc1024, hc2, ?_⟩
  · show (SB_USABLE_SIZE / ss - 1) % 1024 ≤ SB_USABLE_SIZE / ss
    rw [hmod]
    omega
  · show chainOk (newSbSlots (SB_USABLE_SIZE / ss)) (SB_USABLE_SIZE / ss) 1
      ((SB_USABLE_SIZE / ss - 1) % 1024)
    rw [hmod]
    exact aux_chainOk_newSb _ 0 (by omega) _ 1 (by omega) (by omega)

/- alloc_from_new_sb on a heap with an empty active slot: the install CAS
   succeeds, slot 0 of the fresh superblock is returned, and the heap stays
   well-formed. -/
theorem aux_newsb_wf (h : SeqHeap) (hdr : Nat)
    (hact : h.active = none) (hh : heapWf h)
    (hc2 : 2 ≤ SB_USABLE_SIZE / h.slotSize) (hc1024 : SB_USABLE_SIZE / h.slotSize < 1024)
    (hal : hdr % SB_SIZE = 0) :
    ∃ h1, seq_alloc_from_new_sb h (some hdr) = SeqResult.ptr (hdr + SB_HEADER_SIZE) h1 ∧
      heapWf h1 ∧ h1.slotSize = h.slotSize ∧
      h1.active = some (newSbDesc h.slotSize hdr) := by
  obtain ⟨hhA, hhP, hhD⟩ := hh
  refine ⟨{ h with active := some (newSbDesc h.slotSize hdr) }, ?_, ⟨?_, ?_, ?_⟩, rfl, rfl⟩
  · unfold seq_alloc_from_new_sb
    dsimp only
    rw [if_pos hal, hact]
  · intro x hx
    dsimp only at hx
    obtain rfl := Option.some.inj hx
    exact ⟨aux_newsb_desc_wf h.slotSize hdr hc2 hc1024, rfl, rfl⟩
  · intro x hx
    exact hhP x hx
  · intro x hx
    exact hhD x hx

/- The sequential mono_lock_free_alloc on a well-formed heap with a
   granted, aligned OS region: the returned address is slot i of the
   superblock of a descriptor resident in the resulting heap (its active
   descriptor, or a ghost-tracked FULL one), with i in range for the
   heap's size class, and the heap stays well-formed. -/
theorem aux_mono_wf (h : SeqHeap) (hdr : Nat) (hwf : heapWf h)
    (hc2 : 2 ≤ SB_USABLE_SIZE / h.slotSize) (hc1024 : SB_USABLE_SIZE / h.slotSize < 1024)
    (hal : hdr % SB_SIZE = 0) :
    ∃ addr h1, seq_mono_lock_free_alloc h (some hdr) = SeqResult.ptr addr h1 ∧
      heapWf h1 ∧ h1.slotSize = h.slotSize ∧
      ∃ dl i, (h1.active = some dl ∨ dl ∈ h1.detached) ∧ dl.slotSize = h.slotSize ∧
        i < SB_USABLE_SIZE / h.slotSize ∧ addr = dl.sb + i * h.slotSize := by
  obtain ⟨hhA, hhP, hhD⟩ := hwf
  unfold seq_mono_lock_free_alloc alloc_from_active_or_partial_seq
  rcases hact : h.active with _ | d
  · dsimp only
    unfold partialPathSeq
    rcases hres : heap_get_partial_seq h.partialQ with ⟨res, rest⟩
    cases res with
    | none =>
      dsimp only
      have hrest := aux_hgp_none _ _ hres
      subst hrest
      obtain ⟨h1, heq, hW, hS, hA1⟩ := aux_newsb_wf { h with partialQ := [] } hdr hact
        ⟨hhA, fun x hx => absurd hx (List.not_mem_nil x), hhD⟩ hc2 hc1024 hal
      rw [heq]
      refine ⟨_, h1, rfl, hW, hS, newSbDesc h.slotSize hdr, 0, Or.inl hA1, rfl,
        by omega, ?_⟩
      show hdr + SB_HEADER_SIZE = (newSbDesc h.slotSize hdr).sb + 0 * h.slotSize
      simp [newSbDesc]
    | some e =>
      dsimp only
      obtain ⟨hemem, henE, hsub⟩ := aux_hgp_some _ _ _ hres
      obtain ⟨hewf, hess, henF⟩ := hhP e hemem
      have heP : e.anchor.state = State.PARTIAL := aux_partial_of_ne _ henF henE
      obtain ⟨h', heq, hW, hS, hav, dl, hloc, hsb, hssd⟩ :=
        aux_allocOwned_wf e { h with partialQ := rest }
          hewf heP hess hact ⟨hhA, fun x hx => hhP x (hsub x hx), hhD⟩
      rw [heq]
      refine ⟨_, h', rfl, hW, hS, dl, e.anchor.avail, hloc, ?_, ?_, ?_⟩
      · rw [hssd, hess]
      · have hmc := hewf.2.2.1
        rw [hess] at hmc
        omega
      · rw [hsb, hess]
  · dsimp only
    have hAd := hhA d hact
    obtain ⟨hdwf, hdss, hdP⟩ := hAd
    have hne : d.anchor.state ≠ State.EMPTY := by
      rw [hdP]
      exact fun hc => State.noConfusion hc
    rw [if_neg hne]
    obtain ⟨h', heq, hW, hS, hav, dl, hloc, hsb, hssd⟩ :=
      aux_allocOwned_wf d { h with active := none }
        hdwf hdP hdss rfl
        ⟨fun x hx => Option.noConfusion hx, hhP, hhD⟩
    rw [heq]
    refine ⟨_, h', rfl, hW, hS, dl, d.anchor.avail, hloc, ?_, ?_, ?_⟩
    · rw [hssd, hdss]
    · have hmc := hdwf.2.2.1
      rw [hdss] at hmc
      omega
    · rw [hsb, hdss]

/- list_remove_empty_desc walk: every retired descriptor is EMPTY, every
   re-enqueued one is non-EMPTY, and with the counter at n the walk
   re-enqueues at most 2 - n descriptors. -/
theorem aux_lre (q : List QDesc) (n : Nat) :
    (∀ d ∈ (list_remove_empty_aux q n).1, d.state = State.EMPTY) ∧
    (∀ d ∈ (list_remove_empty_aux q n).2.1, d.state ≠ State.EMPTY) ∧
    (n < 2 → (list_remove_empty_aux q n).2.1.length ≤ 2 - n) := by
  induction q generalizing n with
  | nil =>
    refine ⟨?_, ?_, ?_⟩
    · intro d hd
      exact absurd hd (List.not_mem_nil d)
    · intro d hd
      exact absurd hd (List.not_mem_nil d)
    · intro _
      exact Nat.zero_le _
  | cons e tl ih =>
    unfold list_remove_empty_aux
    by_cases hE : e.state = State.EMPTY
    · rw [if_pos hE]
      dsimp only
      obtain ⟨i1, i2, i3⟩ := ih n
      refine ⟨?_, i2, i3⟩
      intro d hd
      rcases List.mem_cons.mp hd with rfl | hd'
      · exact hE
      · exact i1 d hd'
    · rw [if_neg hE]
      by_cases hn : 2 ≤ n + 1
      · rw [if_pos hn]
        refine ⟨?_, ?_, ?_⟩
        · intro d hd
          exact absurd hd (List.not_mem_nil d)
        · intro d hd
          obtain rfl := List.mem_singleton.mp hd
          exact hE
        · intro hlt
          simp only [List.length_singleton]
          omega
      · rw [if_neg hn]
        dsimp only
        obtain ⟨i1, i2, i3⟩ := ih (n + 1)
        refine ⟨i1, ?_, ?_⟩
        · intro d hd
          rcases List.mem_cons.mp hd with rfl | hd'
          · exact hE
          · exact i2 d hd'
        · intro _
          have := i3 (by omega)
          simp only [List.length_cons]
          omega

theorem aux_descChain_length (n base : Nat) : (descChain base n).length = n := by
  induction n generalizing base with
  | zero => rfl
  | succ m ih => simp [descChain, ih]

/- ---------------------------------------------------------------- -/
/- Claim theorems. -/

/-- C1 counterexample: the claim states that on the free path a successful
anchor CAS publishes a tag equal to the old tag plus one.  At the concrete
anchor (avail 5, count 3, PARTIAL, tag 7), freeing slot 2 of a 255-slot
superblock publishes tag 7, not 8: mono_lock_free_free never writes the tag
field. -/
theorem C1_counterexample :
    (freeAnchorUpdate (Anchor.mk 5 3 State.PARTIAL 7) 2 255).tag = 7 ∧
    ¬ (freeAnchorUpdate (Anchor.mk 5 3 State.PARTIAL 7) 2 255).tag =
        (Anchor.mk 5 3 State.PARTIAL 7).tag + 1 := by
  decide

/-- C1 (amended): the tag is incremented (mod 2^42) by every successful
anchor CAS of the alloc path, but the free path publishes the old tag
unchanged. -/
theorem C1_tag_amended (a : Anchor) (idx mc next : Nat) :
    (freeAnchorUpdate a idx mc).tag = a.tag ∧
    (allocAnchorUpdate a next).tag = (a.tag + 1) % 2 ^ 42 :=
  ⟨rfl, rfl⟩

/-- C3: for a descriptor whose anchor satisfies the state/count invariant
(count = max iff EMPTY, count = 0 iff FULL, else PARTIAL), each anchor
writer preserves it: the alloc-path CAS (which requires the PARTIAL state
its ASSERT pins), the free-path CAS (whose old state is not EMPTY), and
the anchor installed by alloc_from_new_sb. -/
theorem C3_anchor_invariant (a : Anchor) (mc next idx : Nat)
    (hmc : mc < 1024) (hmc2 : 2 ≤ mc) (hcle : a.count ≤ mc) (hinv : anchorInv a mc) :
    (a.state = State.PARTIAL → anchorInv (allocAnchorUpdate a next) mc) ∧
    (a.state ≠ State.EMPTY → anchorInv (freeAnchorUpdate a idx mc) mc) ∧
    anchorInv (alloc_from_new_sb_anchor mc) mc :=
  ⟨fun hp => aux_alloc_inv a mc next hmc hmc2 hcle hinv hp,
   fun hne => aux_free_inv a mc idx hmc hmc2 hcle hinv hne,
   aux_newsb_inv mc hmc hmc2⟩

/-- C3 witness: the invariant preservation instantiated at the concrete
anchor (avail 1, count 5, PARTIAL, tag 0) with max_count 255. -/
theorem C3_anchor_invariant_witness :
    ((Anchor.mk 1 5 State.PARTIAL 0).state = State.PARTIAL →
      anchorInv (allocAnchorUpdate (Anchor.mk 1 5 State.PARTIAL 0) 7) 255) ∧
    ((Anchor.mk 1 5 State.PARTIAL 0).state ≠ State.EMPTY →
      anchorInv (freeAnchorUpdate (Anchor.mk 1 5 State.PARTIAL 0) 3 255) 255) ∧
    anchorInv (alloc_from_new_sb_anchor 255) 255 :=
  C3_anchor_invariant (Anchor.mk 1 5 State.PARTIAL 0) 255 7 3 (by decide) (by decide)
    (by decide) (by decide)

/-- C5: an EMPTY descriptor is never re-armed.  The free-path anchor update
satisfies set_anchor's precondition (old EMPTY implies new EMPTY)
unconditionally; the alloc path retires an EMPTY descriptor instead of
calling set_anchor, and whenever it does attempt a CAS the precondition
holds. -/
theorem C5_empty_stays_empty (a : Anchor) (idx mc next sb ss : Nat) :
    set_anchor_ok a (freeAnchorUpdate a idx mc) ∧
    (a.state = State.EMPTY → allocAttempt a next sb ss = AllocStep.retire) ∧
    (∀ na addr, allocAttempt a next sb ss = AllocStep.cas na addr → set_anchor_ok a na) := by
  refine ⟨?_, ?_, ?_⟩
  · intro hE
    unfold freeAnchorUpdate
    dsimp only
    by_cases hm : inc10 a.count = mc
    · rw [if_pos hm]
    · rw [if_neg hm]
      have hF : a.state ≠ State.FULL := by
        rw [hE]
        exact fun hc => State.noConfusion hc
      rw [if_neg hF, hE]
  · intro hE
    unfold allocAttempt
    rw [if_pos hE]
  · intro na addr hcas hE
    unfold allocAttempt at hcas
    rw [if_pos hE] at hcas
    exact AllocStep.noConfusion hcas

/-- C5 witness: instantiated at a concrete EMPTY anchor. -/
theorem C5_empty_stays_empty_witness :
    set_anchor_ok (Anchor.mk 0 255 State.EMPTY 9)
      (freeAnchorUpdate (Anchor.mk 0 255 State.EMPTY 9) 3 255) ∧
    ((Anchor.mk 0 255 State.EMPTY 9).state = State.EMPTY →
      allocAttempt (Anchor.mk 0 255 State.EMPTY 9) 7 1000 64 = AllocStep.retire) ∧
    (∀ na addr, allocAttempt (Anchor.mk 0 255 State.EMPTY 9) 7 1000 64 = AllocStep.cas na addr →
      set_anchor_ok (Anchor.mk 0 255 State.EMPTY 9) na) :=
  C5_empty_stays_empty (Anchor.mk 0 255 State.EMPTY 9) 3 255 7 1000 64

/-- C6 counterexample: the claim bounds the number of EMPTY descriptors
retired by one call to list_remove_empty_desc by two.  On a queue of three
EMPTY descriptors the call retires all three: the bound in the code is on
re-enqueued non-EMPTY descriptors, not on retired ones. -/
theorem C6_counterexample :
    (list_remove_empty_desc
      [QDesc.mk 0 State.EMPTY, QDesc.mk 1 State.EMPTY, QDesc.mk 2 State.EMPTY]).1.length = 3 ∧
    ¬ (list_remove_empty_desc
      [QDesc.mk 0 State.EMPTY, QDesc.mk 1 State.EMPTY, QDesc.mk 2 State.EMPTY]).1.length ≤ 2 := by
  decide

/-- C6 (amended): list_remove_empty_desc retires every EMPTY descriptor it
dequeues (possibly more than two) and re-enqueues at most two non-EMPTY
descriptors, returning after the second; and the free path invokes it
exactly when the freed descriptor became EMPTY but the freeing thread lost
the CAS taking it out of heap->active. -/
theorem C6_remove_empty_amended (q : List QDesc) (na : Anchor) (oldSt : State) (w : Bool) :
    (∀ d ∈ (list_remove_empty_desc q).1, d.state = State.EMPTY) ∧
    (∀ d ∈ (list_remove_empty_desc q).2.1, d.state ≠ State.EMPTY) ∧
    (list_remove_empty_desc q).2.1.length ≤ 2 ∧
    (freePostAction na oldSt w = FreeAction.removeEmpty ↔
      na.state = State.EMPTY ∧ w = false) := by
  obtain ⟨i1, i2, i3⟩ := aux_lre q 0
  refine ⟨i1, i2, ?_, ?_⟩
  · unfold list_remove_empty_desc
    have := i3 (by omega)
    omega
  unfold freePostAction
  by_cases hE : na.state = State.EMPTY
  · rw [if_pos hE]
    cases w
    · simp [hE]
    · simp
  · rw [if_neg hE]
    by_cases hF : oldSt = State.FULL
    · rw [if_pos hF]
      simp [hE]
    · rw [if_neg hF]
      simp [hE]

/-- C6 witness: the amended statement at a concrete mixed queue and a
concrete free-path outcome. -/
theorem C6_remove_empty_amended_witness :
    (∀ d ∈ (list_remove_empty_desc
        [QDesc.mk 0 State.EMPTY, QDesc.mk 1 State.PARTIAL, QDesc.mk 2 State.EMPTY,
         QDesc.mk 3 State.PARTIAL, QDesc.mk 4 State.EMPTY]).1, d.state = State.EMPTY) ∧
    (∀ d ∈ (list_remove_empty_desc
        [QDesc.mk 0 State.EMPTY, QDesc.mk 1 State.PARTIAL, QDesc.mk 2 State.EMPTY,
         QDesc.mk 3 State.PARTIAL, QDesc.mk 4 State.EMPTY]).2.1, d.state ≠ State.EMPTY) ∧
    (list_remove_empty_desc
        [QDesc.mk 0 State.EMPTY, QDesc.mk 1 State.PARTIAL, QDesc.mk 2 State.EMPTY,
         QDesc.mk 3 State.PARTIAL, QDesc.mk 4 State.EMPTY]).2.1.length ≤ 2 ∧
    (freePostAction (Anchor.mk 3 255 State.EMPTY 0) State.PARTIAL false =
        FreeAction.removeEmpty ↔
      (Anchor.mk 3 255 State.EMPTY 0).state = State.EMPTY ∧ false = false) :=
  C6_remove_empty_amended
    [QDesc.mk 0 State.EMPTY, QDesc.mk 1 State.PARTIAL, QDesc.mk 2 State.EMPTY,
     QDesc.mk 3 State.PARTIAL, QDesc.mk 4 State.EMPTY]
    (Anchor.mk 3 255 State.EMPTY 0) State.PARTIAL false

/-- C7: list_get_partial returns NULL exactly when every queued descriptor
was EMPTY (the queue is exhausted, every dequeued EMPTY descriptor having
been retired); a returned descriptor is never EMPTY; and everything it
retires is EMPTY. -/
theorem C7_get_partial_spec (q : List QDesc) :
    ((list_get_partial_m q).1 = none ↔ ∀ d ∈ q, d.state = State.EMPTY) ∧
    (∀ d, (list_get_partial_m q).1 = some d → d.state ≠ State.EMPTY) ∧
    (∀ d ∈ (list_get_partial_m q).2.1, d.state = State.EMPTY) := by
  induction q with
  | nil =>
    refine ⟨⟨fun _ d hd => absurd hd (List.not_mem_nil d), fun _ => rfl⟩, ?_, ?_⟩
    · intro d hc
      exact Option.noConfusion hc
    · intro d hd
      exact absurd hd (List.not_mem_nil d)
  | cons e tl ih =>
    obtain ⟨j1, j2, j3⟩ := ih
    unfold list_get_partial_m
    by_cases hE : e.state = State.EMPTY
    · rw [if_pos hE]
      dsimp only
      refine ⟨⟨?_, ?_⟩, j2, ?_⟩
      · intro hn d hd
        rcases List.mem_cons.mp hd with rfl | hd'
        · exact hE
        · exact j1.mp hn d hd'
      · intro hall
        exact j1.mpr (fun d hd => hall d (List.mem_cons_of_mem e hd))
      · intro d hd
        rcases List.mem_cons.mp hd with rfl | hd'
        · exact hE
        · exact j3 d hd'
    · rw [if_neg hE]
      refine ⟨⟨?_, ?_⟩, ?_, ?_⟩
      · intro hc
        exact Option.noConfusion hc
      · intro hall
        exact absurd (hall e (List.mem_cons_self e tl)) hE
      · intro d hd
        obtain rfl := Option.some.inj hd
        exact hE
      · intro d hd
        exact absurd hd (List.not_mem_nil d)

/-- C7 witness: the specification applied to the concrete queue
EMPTY, EMPTY, PARTIAL, EMPTY. -/
theorem C7_get_partial_spec_witness :
    ((list_get_partial_m
        [QDesc.mk 0 State.EMPTY, QDesc.mk 1 State.EMPTY, QDesc.mk 2 State.PARTIAL,
         QDesc.mk 3 State.EMPTY]).1 = none ↔ ∀ d ∈
        [QDesc.mk 0 State.EMPTY, QDesc.mk 1 State.EMPTY, QDesc.mk 2 State.PARTIAL,
         QDesc.mk 3 State.EMPTY], d.state = State.EMPTY) ∧
    (∀ d, (list_get_partial_m
        [QDesc.mk 0 State.EMPTY, QDesc.mk 1 State.EMPTY, QDesc.mk 2 State.PARTIAL,
         QDesc.mk 3 State.EMPTY]).1 = some d → d.state ≠ State.EMPTY) ∧
    (∀ d ∈ (list_get_partial_m
        [QDesc.mk 0 State.EMPTY, QDesc.mk 1 State.EMPTY, QDesc.mk 2 State.PARTIAL,
         QDesc.mk 3 State.EMPTY]).2.1, d.state = State.EMPTY) :=
  C7_get_partial_spec
    [QDesc.mk 0 State.EMPTY, QDesc.mk 1 State.EMPTY, QDesc.mk 2 State.PARTIAL,
     QDesc.mk 3 State.EMPTY]

/-- C8: the batch path of desc_alloc builds a chain of exactly
NUM_DESC_BATCH = 64 fresh descriptors whose head is the one returned; the
installing CAS succeeds exactly when desc_avail is still null, setting it
to the chain's second element; a failed CAS frees the whole batch and
leaves desc_avail unchanged. -/
theorem C8_desc_batch (avail : List Nat) (base : Nat) :
    (batchChain base).length = NUM_DESC_BATCH ∧
    NUM_DESC_BATCH = 64 ∧
    (batchChain base).head? = some base ∧
    (batchChain base).tail.head? = some (base + 1) ∧
    (avail = [] → desc_alloc_batch avail base =
      (some base, (batchChain base).tail, false)) ∧
    (avail ≠ [] → desc_alloc_batch avail base = (none, avail, true)) := by
  refine ⟨aux_descChain_length _ _, rfl, rfl, rfl, ?_, ?_⟩
  · intro hnil
    unfold desc_alloc_batch
    rw [if_pos hnil]
  · intro hnn
    unfold desc_alloc_batch
    rw [if_neg hnn]

/-- C8 witness: both CAS outcomes at concrete stacks, with base address
100. -/
theorem C8_desc_batch_witness :
    desc_alloc_batch [] 100 = (some 100, (batchChain 100).tail, false) ∧
    desc_alloc_batch [7] 100 = (none, [7], true) :=
  ⟨(C8_desc_batch [] 100).2.2.2.2.1 rfl,
   (C8_desc_batch [7] 100).2.2.2.2.2 (by decide)⟩

/-- C2 counterexample: the claim states that mono_lock_free_alloc returns
null when the OS allocator refuses memory.  On a fresh heap with a
refusing OS allocator the sequential run aborts (alloc_sb stores the
descriptor pointer through SB_HEADER_FOR_ADDR of the NULL it received — a
null-pointer write); no null return is produced, because the function's
retry loop can only exit with a non-null address. -/
theorem C2_counterexample :
    seq_mono_lock_free_alloc emptyHeap none = SeqResult.fail := rfl

/-- C2 (amended): sequentially, mono_lock_free_alloc never returns null —
on OS refusal it aborts rather than returning null; whenever the OS
allocator grants an aligned region, the call returns slot i of the
superblock of a descriptor resident in the resulting heap (the active
descriptor, or a ghost-tracked FULL one), with i in range for the heap's
size class, and heap well-formedness (every descriptor's anchor
consistent) is preserved. -/
theorem C2_alloc_amended (h : SeqHeap) (os : Option Nat) :
    (∀ h1, seq_mono_lock_free_alloc h os ≠ SeqResult.nullRet h1) ∧
    (∀ hdr, os = some hdr → hdr % SB_SIZE = 0 → heapWf h →
      2 ≤ SB_USABLE_SIZE / h.slotSize → SB_USABLE_SIZE / h.slotSize < 1024 →
      ∃ addr h1, seq_mono_lock_free_alloc h os = SeqResult.ptr addr h1 ∧
        heapWf h1 ∧ h1.slotSize = h.slotSize ∧
        ∃ dl i, (h1.active = some dl ∨ dl ∈ h1.detached) ∧
          dl.slotSize = h.slotSize ∧ i < SB_USABLE_SIZE / h.slotSize ∧
          addr = dl.sb + i * h.slotSize) := by
  refine ⟨fun h1 => aux_mono_never_null h os h1, ?_⟩
  intro hdr hos hal hwf hc2 hc1024
  subst hos
  exact aux_mono_wf h hdr hwf hc2 hc1024 hal

/-- C2 witness: the amended statement on the fresh test heap with a
granted, aligned superblock at address 16384. -/
theorem C2_alloc_amended_witness :
    ∃ addr h1, seq_mono_lock_free_alloc emptyHeap (some 16384) = SeqResult.ptr addr h1 ∧
      heapWf h1 ∧ h1.slotSize = emptyHeap.slotSize ∧
      ∃ dl i, (h1.active = some dl ∨ dl ∈ h1.detached) ∧
        dl.slotSize = emptyHeap.slotSize ∧ i < SB_USABLE_SIZE / emptyHeap.slotSize ∧
        addr = dl.sb + i * emptyHeap.slotSize :=
  (C2_alloc_amended emptyHeap (some 16384)).2 16384 rfl (by decide)
    ⟨fun x hx => Option.noConfusion hx,
     fun x hx => absurd hx (List.not_mem_nil x),
     fun x hx => absurd hx (List.not_mem_nil x)⟩
    (by decide) (by decide)

/-- C4: after alloc_from_new_sb installs its descriptor, the anchor is
exactly avail 1, count max_count - 1, tag 0, state PARTIAL; slot i holds
next-index i+1 for every i in 1..max_count-2; the free chain of count
slots starting at avail visits exactly the distinct in-range slots
1..max_count-1, never following the last slot's next field (whatever
value v it holds); and the address returned by a successful install is
slot 0 of the fresh superblock. -/
theorem C4_new_sb (ss c hdr v : Nat) (h : SeqHeap)
    (hc : c = SB_USABLE_SIZE / ss) (hc2 : 2 ≤ c) (hc1024 : c < 1024) :
    alloc_from_new_sb_anchor c = Anchor.mk 1 (c - 1) State.PARTIAL 0 ∧
    (∀ i, 1 ≤ i → i < c - 1 → newSbSlots c i = i + 1) ∧
    chain (newSbSlotsWith c v) 1 (c - 1) = natSeq 1 (c - 1) ∧
    (natSeq 1 (c - 1)).length = c - 1 ∧
    (natSeq 1 (c - 1)).Nodup ∧
    (∀ j ∈ natSeq 1 (c - 1), 1 ≤ j ∧ j < c) ∧
    (h.active = none → hdr % SB_SIZE = 0 →
      ∃ h1, seq_alloc_from_new_sb h (some hdr) =
        SeqResult.ptr (hdr + SB_HEADER_SIZE) h1) := by
  refine ⟨?_, ?_, ?_, aux_natSeq_length _ _, aux_natSeq_nodup _ _, ?_, ?_⟩
  · unfold alloc_from_new_sb_anchor
    rw [Nat.mod_eq_of_lt (by omega)]
  · intro i h1 h2
    unfold newSbSlots newSbSlotsWith
    rw [if_pos ⟨h1, h2⟩]
  · exact aux_chain_eq c v (c - 1) 1 (le_refl 1) (by omega)
  · intro j hj
    have hj' := (aux_natSeq_mem (c - 1) 1 j).mp hj
    omega
  · intro hact hal
    refine ⟨{ h with active := some (newSbDesc h.slotSize hdr) }, ?_⟩
    unfold seq_alloc_from_new_sb
    dsimp only
    rw [if_pos hal, hact]

/-- C4 witness: instantiated at the test size class (slot size 64,
max_count 255), untouched-slot value 0, and an aligned header address. -/
theorem C4_new_sb_witness :
    alloc_from_new_sb_anchor 255 = Anchor.mk 1 254 State.PARTIAL 0 ∧
    (∀ i, 1 ≤ i → i < 254 → newSbSlots 255 i = i + 1) ∧
    chain (newSbSlotsWith 255 0) 1 254 = natSeq 1 254 ∧
    (natSeq 1 254).length = 254 ∧
    (natSeq 1 254).Nodup ∧
    (∀ j ∈ natSeq 1 254, 1 ≤ j ∧ j < 255) ∧
    (emptyHeap.active = none → 16384 % SB_SIZE = 0 →
      ∃ h1, seq_alloc_from_new_sb emptyHeap (some 16384) =
        SeqResult.ptr (16384 + SB_HEADER_SIZE) h1) :=
  C4_new_sb 64 255 16384 0 emptyHeap (by decide) (by decide) (by decide)

/-- C9: the in_use discipline of the descriptor pool: desc_alloc pops only
descriptors whose in_use flag was false and returns them with it set;
desc_retire demands in_use (and EMPTY) and clears it; desc_enqueue_avail
pushes only EMPTY descriptors with in_use false; hence a stack whose
members all have in_use false keeps that property across pushes and pops,
so no descriptor is simultaneously in_use and resident on desc_avail. -/
theorem C9_in_use_discipline (avail rest : List DescR) (d d' : DescR) (l : List DescR) :
    (desc_alloc_pop avail = some (d', rest) →
      d'.in_use = true ∧ ∃ d0, avail = d0 :: rest ∧ d0.in_use = false ∧
        d' = { d0 with in_use := true }) ∧
    (desc_retire d = some d' →
      d.in_use = true ∧ d.state = State.EMPTY ∧ d'.in_use = false) ∧
    (desc_enqueue_avail d avail = some l →
      d.in_use = false ∧ d.state = State.EMPTY ∧ l = d :: avail) ∧
    ((∀ x ∈ avail, x.in_use = false) → desc_enqueue_avail d avail = some l →
      ∀ x ∈ l, x.in_use = false) ∧
    ((∀ x ∈ avail, x.in_use = false) → desc_alloc_pop avail = some (d', rest) →
      ∀ x ∈ rest, x.in_use = false) := by
  have hpop : desc_alloc_pop avail = some (d', rest) →
      d'.in_use = true ∧ ∃ d0, avail = d0 :: rest ∧ d0.in_use = false ∧
        d' = { d0 with in_use := true } := by
    intro hp
    cases avail with
    | nil => exact Option.noConfusion hp
    | cons e tl =>
      unfold desc_alloc_pop at hp
      dsimp only at hp
      by_cases hu : e.in_use = true
      · rw [if_pos hu] at hp
        exact Option.noConfusion hp
      · rw [if_neg hu] at hp
        have hfalse : e.in_use = false := by
          cases hbe : e.in_use
          · rfl
          · exact absurd hbe hu
        have hpair := Option.some.inj hp
        injection hpair with h1 h2
        subst h2
        refine ⟨?_, e, rfl, hfalse, h1.symm⟩
        rw [← h1]
  have hret : desc_retire d = some d' →
      d.in_use = true ∧ d.state = State.EMPTY ∧ d'.in_use = false := by
    intro hr
    unfold desc_retire at hr
    by_cases hs : d.state = State.EMPTY
    · rw [if_pos hs] at hr
      by_cases hu : d.in_use = true
      · rw [if_pos hu] at hr
        obtain rfl := Option.some.inj hr
        exact ⟨hu, hs, rfl⟩
      · rw [if_neg hu] at hr
        exact Option.noConfusion hr
    · rw [if_neg hs] at hr
      exact Option.noConfusion hr
  have henq : desc_enqueue_avail d avail = some l →
      d.in_use = false ∧ d.state = State.EMPTY ∧ l = d :: avail := by
    intro he
    unfold desc_enqueue_avail at he
    by_cases hcond : d.state = State.EMPTY ∧ d.in_use = false
    · rw [if_pos hcond] at he
      obtain rfl := Option.some.inj he
      exact ⟨hcond.2, hcond.1, rfl⟩
    · rw [if_neg hcond] at he
      exact Option.noConfusion he
  refine ⟨hpop, hret, henq, ?_, ?_⟩
  · intro hall he
    obtain ⟨hdu, _, rfl⟩ := henq he
    intro x hx
    rcases List.mem_cons.mp hx with rfl | hx'
    · exact hdu
    · exact hall x hx'
  · intro hall hp
    obtain ⟨_, d0, heq, _, _⟩ := hpop hp
    intro x hx
    refine hall x ?_
    rw [heq]
    exact List.mem_cons_of_mem d0 hx

/-- C9 witness: each part of the discipline exercised at concrete
descriptors and stacks. -/
theorem C9_in_use_discipline_witness :
    ((DescR.mk 0 true State.EMPTY).in_use = true ∧ ∃ d0,
        [DescR.mk 0 false State.EMPTY] = d0 :: ([] : List DescR) ∧ d0.in_use = false ∧
        DescR.mk 0 true State.EMPTY = { d0 with in_use := true }) ∧
    ((DescR.mk 1 true State.EMPTY).in_use = true ∧
      (DescR.mk 1 true State.EMPTY).state = State.EMPTY ∧
      (DescR.mk 1 false State.EMPTY).in_use = false) ∧
    ((DescR.mk 2 false State.EMPTY).in_use = false ∧
      (DescR.mk 2 false State.EMPTY).state = State.EMPTY ∧
      [DescR.mk 2 false State.EMPTY, DescR.mk 0 false State.EMPTY] =
        DescR.mk 2 false State.EMPTY :: [DescR.mk 0 false State.EMPTY]) ∧
    (∀ x ∈ [DescR.mk 2 false State.EMPTY, DescR.mk 0 false State.EMPTY],
      x.in_use = false) ∧
    (∀ x ∈ ([] : List DescR), x.in_use = false) :=
  ⟨(C9_in_use_discipline [DescR.mk 0 false State.EMPTY] [] (DescR.mk 1 true State.EMPTY)
      (DescR.mk 0 true State.EMPTY) []).1 (by decide),
   (C9_in_use_discipline [] [] (DescR.mk 1 true State.EMPTY)
      (DescR.mk 1 false State.EMPTY) []).2.1 (by decide),
   (C9_in_use_discipline [DescR.mk 0 false State.EMPTY] [] (DescR.mk 2 false State.EMPTY)
      (DescR.mk 0 true State.EMPTY)
      [DescR.mk 2 false State.EMPTY, DescR.mk 0 false State.EMPTY]).2.2.1 (by decide),
   (C9_in_use_discipline [DescR.mk 0 false State.EMPTY] [] (DescR.mk 2 false State.EMPTY)
      (DescR.mk 0 true State.EMPTY)
      [DescR.mk 2 false State.EMPTY, DescR.mk 0 false State.EMPTY]).2.2.2.1
      (by decide) (by decide),
   (C9_in_use_discipline [DescR.mk 0 false State.EMPTY] [] (DescR.mk 2 false State.EMPTY)
      (DescR.mk 0 true State.EMPTY) []).2.2.2.2 (by decide) (by decide)⟩

/-- C10: with SB_SIZE 16384 and SB_HEADER_SIZE 16 the usable size is 16368
bytes; for the test size class of 64-byte slots max_count is 255, which is
below 1024 so avail and count fit their 10-bit anchor fields. -/
theorem C10_sizes :
    SB_SIZE = 16384 ∧ SB_HEADER_SIZE = 16 ∧ SB_USABLE_SIZE = 16368 ∧
    TEST_SIZE = 64 ∧ SB_USABLE_SIZE / TEST_SIZE = 255 ∧
    SB_USABLE_SIZE / TEST_SIZE < 1024 := by
  decide

end LockFreeAlloc
